import Mathlib

/-!
# Patient-record application: shallow embedding and verification

This file embeds the patient data synchronization/cache layer of the
patient-app repository (the patient-service variant of
`src/services/authService.ts` together with the FHIR client
`fhirService`) into Lean 4 and proves/refutes the specification claims
about it.

Modelling conventions:
* TypeScript string falsiness (`x || d` yields `d` when `x` is `undefined`
  or the empty string) is modelled by `jsOr`.
* `Date.now()` / `new Date().toISOString()` are impure reads of the clock;
  they are passed in as explicit `now` string parameters.
* `new Date(s)` comparison in the `createdAfter` filter is modelled by an
  abstract parameter `parse : String → Int` (the numeric time value of a
  date string); no claim depends on the concrete parsing of dates.
* Change notifications (`notifyListeners`) are modelled by a counter in the
  state; registry HTTP requests are modelled by recording the requested
  page in the state (`requests`).
* HTTP transports are parameters returning `Except`; a `.error` models a
  rejected axios promise (transport or server failure).  `console.error`
  calls are modelled as a returned log list (the observability sink).
-/

namespace PatientApp

/-- Models the JS expression `x || fallback` on optional strings:
`undefined` and `""` are falsy. -/
def jsOr (x : Option String) (fallback : String) : String :=
  match x with
  | none => fallback
  | some s => if s = "" then fallback else s

/-! ## FHIR wire shapes (`fhirService.ts`) -/

/-- An entry of `FhirPatient.name`. -/
structure HumanName where
  given : List String := []
  family : Option String := none
deriving Repr, DecidableEq

/-- An entry of `FhirPatient.telecom`. -/
structure ContactPoint where
  system : Option String := none
  value : Option String := none
deriving Repr, DecidableEq

/-- An entry of `FhirPatient.address`. -/
structure FhirAddress where
  line : Option (List String) := none
deriving Repr, DecidableEq

/-- The `meta` of a FHIR resource (only the field the code reads). -/
structure FhirMeta where
  lastUpdated : Option String := none
deriving Repr, DecidableEq

/-- The raw registry record shape (`FhirPatient` in `fhirService.ts`). -/
structure FhirPatient where
  id : Option String := none
  name : List HumanName := []
  gender : Option String := none
  birthDate : Option String := none
  telecom : List ContactPoint := []
  address : List FhirAddress := []
  meta : Option FhirMeta := none
deriving Repr, DecidableEq

namespace FhirService

/-- An entry of a FHIR search bundle (`response.data.entry`). -/
structure BundleEntry where
  resource : FhirPatient
deriving Repr, DecidableEq

/-- The response body of a FHIR search (`response.data`). -/
structure SearchBundle where
  entry : Option (List BundleEntry) := none
  total : Option Nat := none
deriving Repr, DecidableEq

/-- Result shape of `searchPatients` (`SearchPatientsResponse`). -/
structure SearchPatientsResponse where
  patients : List FhirPatient
  total : Nat
deriving Repr, DecidableEq

/-- The URL built by `searchPatients` (percent-encoding not modelled). -/
def searchUrl (searchTerm : String) (page pageSize : Nat) : String :=
  let base := "/Patient?_count=" ++ toString pageSize ++
    "&_getpagesoffset=" ++ toString ((page - 1) * pageSize) ++
    "&_format=json&_pretty=true"
  if searchTerm ≠ "" then base ++ "&name:contains=" ++ searchTerm else base

/-- Function `fhirService.searchPatients`.  The HTTP transport is a parameter;
`.error` models a rejected request.  Returns the result together with the
list of messages sent to the observability sink (`console.error`). -/
def searchPatients (http : String → Except String SearchBundle)
    (searchTerm : String) (page pageSize : Nat) :
    SearchPatientsResponse × List String :=
  match http (searchUrl searchTerm page pageSize) with
  | .ok data =>
    ({ patients := (data.entry.getD []).map (·.resource),
       total := data.total.getD 0 }, [])
  | .error e =>
    ({ patients := [], total := 0 },
     ["Error fetching patients from FHIR server: " ++ e])

/-- Function `fhirService.getPatientById`. -/
def getPatientById (http : String → Except String FhirPatient)
    (id : String) : Option FhirPatient × List String :=
  match http ("/Patient/" ++ id ++ "?_format=json") with
  | .ok p => (some p, [])
  | .error e =>
    (none, ["Error fetching patient from FHIR server: " ++ e])

end FhirService

/-! ## The canonical local record (`Patient` in the patient service) -/

/-- The canonical patient entity held in the Local Record Store. -/
structure Patient where
  id : String
  firstName : String
  lastName : String
  gender : String
  dateOfBirth : String
  email : Option String := none
  phoneNumber : String
  address : Option String := none
  medicalHistory : Option String := none
  createdAt : Option String := none
deriving Repr, DecidableEq

instance : Inhabited Patient :=
  ⟨{ id := "", firstName := "", lastName := "", gender := "",
     dateOfBirth := "", phoneNumber := "" }⟩

namespace PatientService

/-- Normalization performed inside `syncWithFhir` (one element of the
`fhirPatients.map (...)`).  `now` models both `Date.now()` (for the
synthetic id) and `new Date().toISOString()` (for the `createdAt`
fallback), both reads of the clock at that point. -/
def normalizeSynced (now : String) (p : FhirPatient) : Patient :=
  { id := jsOr p.id ("local-" ++ now)
    firstName := jsOr ((p.name.head?).bind (fun n => n.given.head?)) ""
    lastName := jsOr ((p.name.head?).bind (·.family)) ""
    gender := jsOr p.gender "other"
    dateOfBirth := jsOr p.birthDate ""
    email := (p.telecom.find? (fun t => t.system == some "email")).bind (·.value)
    phoneNumber := jsOr ((p.telecom.find? (fun t => t.system == some "phone")).bind (·.value)) ""
    address := ((p.address.head?).bind (·.line)).map (String.intercalate ", ")
    medicalHistory := none
    createdAt := some (jsOr ((p.meta).bind (·.lastUpdated)) now) }

/-- Normalization performed inside `getPatientById` on a cache miss.
Unlike `normalizeSynced` it sets no `createdAt` (the object literal has no
such key). -/
def normalizeFetched (now : String) (p : FhirPatient) : Patient :=
  { id := jsOr p.id ("local-" ++ now)
    firstName := jsOr ((p.name.head?).bind (fun n => n.given.head?)) ""
    lastName := jsOr ((p.name.head?).bind (·.family)) ""
    gender := jsOr p.gender "other"
    dateOfBirth := jsOr p.birthDate ""
    email := (p.telecom.find? (fun t => t.system == some "email")).bind (·.value)
    phoneNumber := jsOr ((p.telecom.find? (fun t => t.system == some "phone")).bind (·.value)) ""
    address := ((p.address.head?).bind (·.line)).map (String.intercalate ", ")
    medicalHistory := none
    createdAt := none }

/-- The check `inMemoryPatients.some (fun p => p.id === i)`. -/
def hasId (ps : List Patient) (i : String) : Bool :=
  ps.any (fun p => p.id == i)

/-- The merge loop of `syncWithFhir` (lines 142–147):
`newPatients.forEach(patient => { if (!inMemoryPatients.some(p => p.id === patient.id)) push })`. -/
def mergePatients (ps newPatients : List Patient) : List Patient :=
  newPatients.foldl
    (fun acc patient => if hasId acc patient.id then acc else acc ++ [patient])
    ps

/-- The module state of the patient service relevant to synchronization.
`notifications` counts `notifyListeners()` calls; `requests` records the
pages requested from the registry (instrumentation of the
`searchPatients` call). -/
structure SyncState where
  inMemoryPatients : List Patient := []
  isInitialSyncDone : Bool := false
  isSyncing : Bool := false
  notifications : Nat := 0
  requests : List Nat := []
deriving Repr, DecidableEq

/-- Function `syncWithFhir(page, limit, isInitial)`.  The registry is modelled as a
function from page number to the `patients` array produced by
`fhirService.searchPatients` for that page — which is `[]` when the
underlying HTTP request failed, since `searchPatients` absorbs failures.
The `try` body cannot throw in this model (it performs no fallible
operation), so the `catch` branch is not reachable and not modelled. -/
def syncWithFhir (registry : Nat → List FhirPatient) (now : String)
    (page limit : Nat) (isInitial : Bool) (s : SyncState) : SyncState :=
  if s.isSyncing then s
  else if h10 : page > 10 then
    if isInitial then
      { s with isInitialSyncDone := true, notifications := s.notifications + 1 }
    else s
  else
    let s1 : SyncState := { s with isSyncing := true }
    let fhirPatients := registry page
    let s2 : SyncState := { s1 with requests := s1.requests ++ [page] }
    let s3 : SyncState :=
      if fhirPatients.length > 0 then
        let newPatients := fhirPatients.map (normalizeSynced now)
        let s4 : SyncState :=
          { s2 with inMemoryPatients := mergePatients s2.inMemoryPatients newPatients }
        if fhirPatients.length == limit then
          syncWithFhir registry now (page + 1) limit isInitial s4
        else if isInitial then { s4 with isInitialSyncDone := true }
        else s4
      else if isInitial then { s2 with isInitialSyncDone := true }
      else s2
    let s5 : SyncState := { s3 with notifications := s3.notifications + 1 }
    { s5 with isSyncing := false }
termination_by 11 - page
decreasing_by omega

/-- State of the Local Record Store as seen by the CRUD operations:
the backing collection plus a count of fired change notifications. -/
structure StoreSt where
  inMemoryPatients : List Patient := []
  notifications : Nat := 0
deriving Repr, DecidableEq

/-- The type Omit of Patient without id: the argument of `createPatient`. -/
structure PatientData where
  firstName : String
  lastName : String
  gender : String
  dateOfBirth : String
  email : Option String := none
  phoneNumber : String
  address : Option String := none
  medicalHistory : Option String := none
  createdAt : Option String := none
deriving Repr, DecidableEq

/-- Function `createPatient`.  `nowMs` models `Date.now()`, `nowIso` models
`new Date().toISOString()`.  The literal `{...patientData, id, createdAt}`
overrides any `createdAt` supplied by the caller. -/
def createPatient (patientData : PatientData) (nowMs nowIso : String)
    (s : StoreSt) : Patient × StoreSt :=
  let newPatient : Patient :=
    { id := "local-" ++ nowMs
      firstName := patientData.firstName
      lastName := patientData.lastName
      gender := patientData.gender
      dateOfBirth := patientData.dateOfBirth
      email := patientData.email
      phoneNumber := patientData.phoneNumber
      address := patientData.address
      medicalHistory := patientData.medicalHistory
      createdAt := some nowIso }
  (newPatient,
   { inMemoryPatients := s.inMemoryPatients ++ [newPatient],
     notifications := s.notifications + 1 })

/-- The type Partial of Patient: the argument of `updatePatient`.  A field is
`some v` when the corresponding key is supplied.  (Supplying a key with
value `undefined` is not modelled; no claim depends on it.) -/
structure PatientUpdate where
  id : Option String := none
  firstName : Option String := none
  lastName : Option String := none
  gender : Option String := none
  dateOfBirth : Option String := none
  email : Option String := none
  phoneNumber : Option String := none
  address : Option String := none
  medicalHistory : Option String := none
  createdAt : Option String := none
deriving Repr, DecidableEq

/-- The object literal `{...existing, ...updates, id}` of `updatePatient`:
supplied keys of `updates` win over `existing`, and the trailing `id` key
wins over everything — `updates.id` is ignored. -/
def applyUpdate (existing : Patient) (updates : PatientUpdate) (id : String) :
    Patient :=
  { id := id
    firstName := updates.firstName.getD existing.firstName
    lastName := updates.lastName.getD existing.lastName
    gender := updates.gender.getD existing.gender
    dateOfBirth := updates.dateOfBirth.getD existing.dateOfBirth
    email := match updates.email with
      | some v => some v
      | none => existing.email
    phoneNumber := updates.phoneNumber.getD existing.phoneNumber
    address := match updates.address with
      | some v => some v
      | none => existing.address
    medicalHistory := match updates.medicalHistory with
      | some v => some v
      | none => existing.medicalHistory
    createdAt := match updates.createdAt with
      | some v => some v
      | none => existing.createdAt }

/-- Function `updatePatient(id, updates)`.  The thrown message, Patient
not found, is re-thrown by the `catch` as Failed to update patient; the
module state
is returned alongside the result (unchanged on failure, since the throw
happens before any mutation). -/
def updatePatient (id : String) (updates : PatientUpdate) (s : StoreSt) :
    Except String Patient × StoreSt :=
  match s.inMemoryPatients.findIdx? (fun p => p.id == id) with
  | none => (.error "Failed to update patient", s)
  | some patientIndex =>
    match s.inMemoryPatients[patientIndex]? with
    | none => (.error "Failed to update patient", s) -- unreachable: index in bounds
    | some existing =>
      let updatedPatient := applyUpdate existing updates id
      (.ok updatedPatient,
       { inMemoryPatients :=
           s.inMemoryPatients.take patientIndex ++ [updatedPatient] ++
             s.inMemoryPatients.drop (patientIndex + 1),
         notifications := s.notifications + 1 })

/-- Function `deletePatient(id)`. -/
def deletePatient (id : String) (s : StoreSt) : StoreSt :=
  { inMemoryPatients := s.inMemoryPatients.filter (fun patient => patient.id != id),
    notifications := s.notifications + 1 }

/-- Function `getPatientById(id)` of the patient service: local lookup, then a
registry fetch with cache append on a miss.  The registry is modelled as
the result of `fhirService.getPatientById`, which absorbs failures into
`none`. -/
def getPatientById (registry : String → Option FhirPatient) (nowMs : String)
    (id : String) (s : StoreSt) : Option Patient × StoreSt :=
  match s.inMemoryPatients.find? (fun p => p.id == id) with
  | some localPatient => (some localPatient, s)
  | none =>
    match registry id with
    | none => (none, s)
    | some fhirPatient =>
      let patient := normalizeFetched nowMs fhirPatient
      (some patient,
       { inMemoryPatients := s.inMemoryPatients ++ [patient],
         notifications := s.notifications + 1 })

/-! ## Listing and filtering (`getPatients`) -/

/-- The `PatientFilters` record. -/
structure PatientFilters where
  name : Option String := none
  gender : Option String := none
  birthDate : Option String := none
  page : Option Nat := none
  limit : Option Nat := none
  createdAfter : Option String := none
deriving Repr, DecidableEq

/-- JS truthiness of an optional string (`undefined` and `""` are falsy). -/
def truthyStr (o : Option String) : Bool := o.getD "" != ""

/-- JS truthiness of an optional number (`undefined` and `0` are falsy;
negative and fractional numbers do not occur here). -/
def truthyNat (o : Option Nat) : Bool := o.getD 0 != 0

/-- Whether `needle` is a leading segment of `hay` (character lists). -/
def startsWithChars : List Char → List Char → Bool
  | [], _ => true
  | _ :: _, [] => false
  | a :: as, b :: bs => a == b && startsWithChars as bs

/-- Whether `needle` occurs as a contiguous run inside `hay` (character lists). -/
def containsRun (needle : List Char) : List Char → Bool
  | [] => startsWithChars needle []
  | b :: bs => startsWithChars needle (b :: bs) || containsRun needle bs

/-- The JS check `haystack.includes(needle)` on strings. -/
def strIncludes (hay needle : String) : Bool :=
  containsRun needle.data hay.data

/-- JS `toLowerCase`, modelled as per-character lowering (`Char.toLower`
lowers ASCII letters, an adequate model here). -/
def toLowerStr (s : String) : String := ⟨s.data.map Char.toLower⟩

/-- The name predicate of `getPatients`:
`` `${firstName} ${lastName}`.toLowerCase().includes(searchTerm) `` with
`searchTerm = filters.name.toLowerCase()`. -/
def nameMatch (term : String) (p : Patient) : Bool :=
  strIncludes (toLowerStr (p.firstName ++ " " ++ p.lastName)) (toLowerStr term)

/-- The `createdAfter` predicate of `getPatients`: records without a
`createdAt` pass; otherwise `new Date(createdAt) >= new Date(createdAfter)`,
with date parsing modelled by `parse`. -/
def createdAfterPred (parse : String → Int) (createdAfter : String)
    (p : Patient) : Bool :=
  match p.createdAt with
  | none => true
  | some c => parse createdAfter ≤ parse c

/-- The filter cascade of `getPatients` (lines 237–261): each predicate is
applied only when the corresponding filter field is truthy. -/
def filterPatients (parse : String → Int) (f : PatientFilters)
    (patients : List Patient) : List Patient :=
  let result := patients
  let result := if truthyStr f.name then
      result.filter (nameMatch (f.name.getD "")) else result
  let result := if truthyStr f.gender then
      result.filter (fun p => p.gender == f.gender.getD "") else result
  let result := if truthyStr f.birthDate then
      result.filter (fun p => p.dateOfBirth == f.birthDate.getD "") else result
  if truthyStr f.createdAfter then
    result.filter (createdAfterPred parse (f.createdAfter.getD ""))
  else result

/-- Function `getPatients(filters)`: early return while the initial sync has not
completed and the store is empty (the background sync it triggers there
changes no returned value and is not modelled); otherwise filter, compute
`total` before pagination, then slice `(page-1)*limit .. page*limit` when
both `page` and `limit` are truthy. -/
def getPatients (parse : String → Int) (isInitialSyncDone : Bool)
    (filters : Option PatientFilters) (patients : List Patient) :
    List Patient × Nat :=
  if !isInitialSyncDone && patients.length == 0 then
    ([], patients.length)
  else
    let result := match filters with
      | some f => filterPatients parse f patients
      | none => patients
    let total := result.length
    let paged := match filters with
      | some f =>
        if truthyNat f.page && truthyNat f.limit then
          let start := (f.page.getD 0 - 1) * f.limit.getD 0
          (result.drop start).take (f.limit.getD 0)
        else result
      | none => result
    (paged, total)

/-- Spec-side rendering of `list(filter?)` (§4.2): the filter is a
conjunction over the optional predicates, `total` is the size of the
filtered set before pagination, and pagination — when page and limit are
both supplied and positive — is applied last as the slice from
`(page-1)*limit` to `page*limit`. -/
def listSpec (parse : String → Int) (f : PatientFilters)
    (patients : List Patient) : List Patient × Nat :=
  let filtered := patients.filter (fun p =>
    (match f.name with | none => true | some n => nameMatch n p) &&
    (match f.gender with | none => true | some g => p.gender == g) &&
    (match f.birthDate with | none => true | some b => p.dateOfBirth == b) &&
    (match f.createdAfter with | none => true | some c => createdAfterPred parse c p))
  match f.page, f.limit with
  | some pg, some lim =>
    if 1 ≤ pg && 1 ≤ lim then
      ((filtered.drop ((pg - 1) * lim)).take lim, filtered.length)
    else (filtered, filtered.length)
  | _, _ => (filtered, filtered.length)

/-! ## Basic lemmas about the synchronization engine -/

/-- The `isSyncing` guard: a call while a sync is in progress is a no-op. -/
theorem syncWithFhir_of_isSyncing (registry : Nat → List FhirPatient)
    (now : String) (page limit : Nat) (isInitial : Bool) {s : SyncState}
    (h : s.isSyncing = true) :
    syncWithFhir registry now page limit isInitial s = s := by
  rw [syncWithFhir]
  simp [h]

/-- Closed form of one guard-passing, in-depth-bound step of
`syncWithFhir`: the recursive call into `page+1` is made with
`isSyncing = true` still set, so it returns its argument unchanged and
the step never continues past the current page. -/
theorem syncWithFhir_step (registry : Nat → List FhirPatient) (now : String)
    (page limit : Nat) (isInitial : Bool) (s : SyncState)
    (hguard : s.isSyncing = false) (hp : ¬ page > 10) :
    syncWithFhir registry now page limit isInitial s =
      (let fhirPatients := registry page
       let s2 : SyncState :=
         { s with isSyncing := true, requests := s.requests ++ [page] }
       let s3 : SyncState :=
         if fhirPatients.length > 0 then
           let s4 : SyncState :=
             { s2 with inMemoryPatients := mergePatients s2.inMemoryPatients (fhirPatients.map (normalizeSynced now)) }
           if fhirPatients.length == limit then s4
           else if isInitial then { s4 with isInitialSyncDone := true }
           else s4
         else if isInitial then { s2 with isInitialSyncDone := true }
         else s2
       { s3 with notifications := s3.notifications + 1, isSyncing := false }) := by
  conv_lhs => rw [syncWithFhir]
  simp only [hguard, hp, Bool.false_eq_true, if_false, dif_neg, not_false_iff]
  by_cases hlen : (registry page).length > 0
  · simp only [hlen, if_true]
    by_cases hfull : ((registry page).length == limit) = true
    · simp only [hfull, if_true]
      rw [syncWithFhir_of_isSyncing]
      rfl
    · simp only [hfull, Bool.false_eq_true, if_false]
  · simp only [hlen, if_false]

/-- C8: With no sync in progress and `page > 10`, `syncWithFhir` issues no
registry request, leaves the store unchanged, and — exactly when this is
the initial pass — sets `initialSyncComplete` and notifies subscribers. -/
theorem sync_depth_bound (registry : Nat → List FhirPatient) (now : String)
    (page limit : Nat) (isInitial : Bool) (s : SyncState)
    (hguard : s.isSyncing = false) (hpage : page > 10) :
    (syncWithFhir registry now page limit isInitial s).requests = s.requests ∧
    (syncWithFhir registry now page limit isInitial s).inMemoryPatients =
      s.inMemoryPatients ∧
    (isInitial = true →
      syncWithFhir registry now page limit isInitial s =
        { s with isInitialSyncDone := true,
                 notifications := s.notifications + 1 }) ∧
    (isInitial = false →
      syncWithFhir registry now page limit isInitial s = s) := by
  rw [syncWithFhir]
  by_cases hi : isInitial <;> simp [hguard, hpage, hi]

/-- Witness for C8: starting at page 11 on the initial pass from the
default state. -/
theorem sync_depth_bound_witness :
    ((fun _ => []) : Nat → List FhirPatient) = (fun _ => []) ∧
    (syncWithFhir (fun _ => []) "0" 11 50 true {}).requests = [] ∧
    (syncWithFhir (fun _ => []) "0" 11 50 true {}).inMemoryPatients = [] ∧
    syncWithFhir (fun _ => []) "0" 11 50 true {} =
      { isInitialSyncDone := true, notifications := 1 } := by
  have h := sync_depth_bound (fun _ => []) "0" 11 50 true {} rfl (by omega)
  exact ⟨rfl, h.1, h.2.1, h.2.2.1 rfl⟩

/-! ## Merge analysis -/

theorem hasId_append (a b : List Patient) (i : String) :
    hasId (a ++ b) i = (hasId a i || hasId b i) := by
  simp [hasId, List.any_append]

theorem hasId_iff_mem (ps : List Patient) (i : String) :
    hasId ps i = true ↔ i ∈ ps.map Patient.id := by
  simp only [hasId, List.any_eq_true, List.mem_map, beq_iff_eq]

theorem mergePatients_nil (s : List Patient) : mergePatients s [] = s := rfl

theorem mergePatients_cons (s : List Patient) (p : Patient) (ps : List Patient) :
    mergePatients s (p :: ps) =
      mergePatients (if hasId s p.id then s else s ++ [p]) ps := rfl

/-- The merge loop only ever appends, and appends only records whose id
was not present when the loop started. -/
theorem mergePatients_decomp (page : List Patient) :
    ∀ s : List Patient, ∃ l, mergePatients s page = s ++ l ∧
      ∀ q ∈ l, q ∈ page ∧ hasId s q.id = false := by
  induction page with
  | nil =>
    intro s
    exact ⟨[], by simp [mergePatients_nil], by simp⟩
  | cons p ps ih =>
    intro s
    rw [mergePatients_cons]
    by_cases hp : hasId s p.id = true
    · obtain ⟨l, hl, hprop⟩ := ih s
      rw [if_pos hp]
      exact ⟨l, hl, fun q hq =>
        ⟨List.mem_cons_of_mem _ (hprop q hq).1, (hprop q hq).2⟩⟩
    · have hp' : hasId s p.id = false := by
        simpa using hp
      obtain ⟨l, hl, hprop⟩ := ih (s ++ [p])
      rw [if_neg hp]
      refine ⟨p :: l, ?_, ?_⟩
      · rw [hl]
        simp
      · intro q hq
        rcases List.mem_cons.mp hq with rfl | hq
        · exact ⟨List.mem_cons_self _ _, hp'⟩
        · refine ⟨List.mem_cons_of_mem _ (hprop q hq).1, ?_⟩
          have h2 := (hprop q hq).2
          rw [hasId_append] at h2
          exact (Bool.or_eq_false_iff.mp h2).1

/-- After a merge, every id of the merged page is present in the store. -/
theorem mergePatients_covers (page : List Patient) :
    ∀ s : List Patient, ∀ q ∈ page, hasId (mergePatients s page) q.id = true := by
  induction page with
  | nil => intro s q hq; cases hq
  | cons p ps ih =>
    intro s q hq
    rw [mergePatients_cons]
    rcases List.mem_cons.mp hq with rfl | hq
    · obtain ⟨l, hl, -⟩ :=
        mergePatients_decomp ps (if hasId s q.id then s else s ++ [q])
      rw [hl, hasId_append]
      by_cases hp : hasId s q.id = true
      · rw [if_pos hp, hp]
        rfl
      · rw [if_neg hp, hasId_append]
        simp [hasId]
    · exact ih _ q hq

/-- Merging a page whose ids are all present is a no-op. -/
theorem mergePatients_eq_self (page : List Patient) :
    ∀ s : List Patient, (∀ q ∈ page, hasId s q.id = true) →
      mergePatients s page = s := by
  induction page with
  | nil => intro s _; rfl
  | cons p ps ih =>
    intro s h
    rw [mergePatients_cons, if_pos (h p (List.mem_cons_self _ _))]
    exact ih s (fun q hq => h q (List.mem_cons_of_mem _ hq))

/-- C2: the sync merge is additive — it appends exactly the page records
whose id is not already present, leaves every record already in the store
unchanged (the old store is a prefix of the new one, element for
element), is idempotent, and therefore never reverts a locally edited
record whose id reappears in a later page. -/
theorem merge_additive (s page : List Patient) :
    ∃ l, mergePatients s page = s ++ l ∧
      (∀ q ∈ l, q ∈ page ∧ hasId s q.id = false) ∧
      (∀ q ∈ page, hasId (mergePatients s page) q.id = true) ∧
      mergePatients (mergePatients s page) page = mergePatients s page := by
  obtain ⟨l, hl, hprop⟩ := mergePatients_decomp page s
  exact ⟨l, hl, hprop, mergePatients_covers page s,
    mergePatients_eq_self page _ (mergePatients_covers page s)⟩

/-- A locally edited record (same id `"a"`, changed name) together with a
fresh record: the sync merge keeps the edited record byte-for-byte and
appends only the fresh id. -/
def editedA : Patient :=
  { id := "a", firstName := "Edited", lastName := "", gender := "other",
    dateOfBirth := "", phoneNumber := "" }

def syncedA : Patient :=
  { id := "a", firstName := "Remote", lastName := "", gender := "other",
    dateOfBirth := "", phoneNumber := "" }

def syncedC : Patient :=
  { id := "c", firstName := "New", lastName := "", gender := "other",
    dateOfBirth := "", phoneNumber := "" }

/-- Witness for C2: merging a page that repeats the locally edited id "a"
appends only "c", covers "c", and is idempotent. -/
theorem merge_additive_witness :
    hasId (mergePatients [editedA] [syncedA, syncedC]) "c" = true ∧
    mergePatients (mergePatients [editedA] [syncedA, syncedC]) [syncedA, syncedC]
      = mergePatients [editedA] [syncedA, syncedC] ∧
    mergePatients [editedA] [syncedA, syncedC] = [editedA, syncedC] := by
  obtain ⟨l, -, -, hcov, hidem⟩ := merge_additive [editedA] [syncedA, syncedC]
  refine ⟨?_, hidem, by decide⟩
  have := hcov syncedC (by decide)
  simpa using this

/-! ## The update operation -/

theorem findIdx?_append_cons {α : Type} {p : α → Bool} (pre : List α) (a : α)
    (post : List α) (hpre : ∀ b ∈ pre, p b = false) (ha : p a = true) :
    (pre ++ a :: post).findIdx? p = some pre.length := by
  induction pre with
  | nil =>
    simp [List.findIdx?_cons, ha]
  | cons b bs ih =>
    have hb : p b = false := hpre b (List.mem_cons_self _ _)
    have ih' := ih (fun q hq => hpre q (List.mem_cons_of_mem _ hq))
    simp [List.findIdx?_cons, hb, ih']

/-- C3: `updatePatient` fails (with the store unchanged and no
notification fired) exactly when the id is absent; when the id is present
it merges the partial data over the first matching record, preserving the
`id` field even when the partial data supplies one, replaces that record
in place, and fires exactly one notification. -/
theorem update_contract (id : String) (updates : PatientUpdate) (s : StoreSt) :
    ((∀ p ∈ s.inMemoryPatients, p.id ≠ id) →
      updatePatient id updates s = (.error "Failed to update patient", s)) ∧
    (∀ pre old post, s.inMemoryPatients = pre ++ old :: post →
      (∀ q ∈ pre, q.id ≠ id) → old.id = id →
      updatePatient id updates s =
        (.ok (applyUpdate old updates id),
         { inMemoryPatients := pre ++ applyUpdate old updates id :: post,
           notifications := s.notifications + 1 }) ∧
      (applyUpdate old updates id).id = id) := by
  constructor
  · intro habsent
    have hnone : s.inMemoryPatients.findIdx? (fun p => p.id == id) = none := by
      rw [List.findIdx?_eq_none_iff]
      intro x hx
      simp [habsent x hx]
    simp [updatePatient, hnone]
  · intro pre old post hdecomp hpre hold
    have hfind : s.inMemoryPatients.findIdx? (fun p => p.id == id) =
        some pre.length := by
      rw [hdecomp]
      exact findIdx?_append_cons pre old post
        (fun q hq => by simp [hpre q hq]) (by simp [hold])
    have hget : s.inMemoryPatients[pre.length]? = some old := by
      rw [hdecomp, List.getElem?_append_right (Nat.le_refl _)]
      simp
    have htake : s.inMemoryPatients.take pre.length = pre := by
      rw [hdecomp]
      exact List.take_left pre (old :: post)
    have hdrop : s.inMemoryPatients.drop (pre.length + 1) = post := by
      rw [hdecomp, show pre ++ old :: post = (pre ++ [old]) ++ post by simp]
      exact List.drop_left' (by simp)
    refine ⟨?_, rfl⟩
    simp only [updatePatient, hfind, hget, htake, hdrop]
    simp

/-- Store and inputs for the update witness: one record with id `"a"`;
the partial data supplies a conflicting id. -/
def storeA : StoreSt := { inMemoryPatients := [editedA], notifications := 0 }

def updZ : PatientUpdate := { id := some "zzz", firstName := some "New" }

/-- Witness for C3: updating a missing id fails and leaves the state
unchanged; updating `"a"` replaces the record, preserves the id against
the supplied `"zzz"`, and bumps the notification count. -/
theorem update_contract_witness :
    updatePatient "missing" updZ storeA = (.error "Failed to update patient", storeA) ∧
    updatePatient "a" updZ storeA =
      (.ok (applyUpdate editedA updZ "a"),
       { inMemoryPatients := [applyUpdate editedA updZ "a"], notifications := 1 }) ∧
    (applyUpdate editedA updZ "a").id = "a" := by
  have h1 := (update_contract "missing" updZ storeA).1 (by decide)
  have h2 := (update_contract "a" updZ storeA).2 [] editedA [] rfl
    (by intro q hq; cases hq) rfl
  exact ⟨h1, by simpa using h2.1, h2.2⟩

/-! ## Uniqueness of ids -/

theorem mergePatients_nodup (page : List Patient) :
    ∀ s : List Patient, (s.map Patient.id).Nodup →
      ((mergePatients s page).map Patient.id).Nodup := by
  induction page with
  | nil => intro s hs; exact hs
  | cons p ps ih =>
    intro s hs
    rw [mergePatients_cons]
    by_cases hp : hasId s p.id = true
    · rw [if_pos hp]
      exact ih s hs
    · rw [if_neg hp]
      refine ih (s ++ [p]) ?_
      have hnot : p.id ∉ s.map Patient.id := by
        intro hmem
        exact hp ((hasId_iff_mem s p.id).mpr hmem)
      simp [List.nodup_append, hs, hnot]

theorem update_ids_eq (id : String) (updates : PatientUpdate) (s : StoreSt) :
    ((updatePatient id updates s).2).inMemoryPatients.map Patient.id =
      s.inMemoryPatients.map Patient.id := by
  rcases hfind : s.inMemoryPatients.findIdx? (fun p => p.id == id) with _ | i
  · simp [updatePatient, hfind]
  · have h := List.findIdx?_eq_some_iff_getElem.mp hfind
    obtain ⟨hlt, hpi, -⟩ := h
    have hid : s.inMemoryPatients[i].id = id := by
      simpa using hpi
    have hget : s.inMemoryPatients[i]? = some s.inMemoryPatients[i] :=
      List.getElem?_eq_getElem hlt
    have hsplit : s.inMemoryPatients =
        s.inMemoryPatients.take i ++
          s.inMemoryPatients[i] :: s.inMemoryPatients.drop (i + 1) := by
      conv_lhs => rw [← List.take_append_drop i s.inMemoryPatients]
      rw [List.drop_eq_getElem_cons hlt]
    have hmlt : i < (s.inMemoryPatients.map Patient.id).length := by
      simpa using hlt
    have hidm : (s.inMemoryPatients.map Patient.id)[i] = id := by
      simpa using hid
    have key : (s.inMemoryPatients.map Patient.id).take i ++
        id :: (s.inMemoryPatients.map Patient.id).drop (i + 1) =
        s.inMemoryPatients.map Patient.id := by
      conv_rhs =>
        rw [← List.take_append_drop i (s.inMemoryPatients.map Patient.id),
          List.drop_eq_getElem_cons hmlt, hidm]
    simp only [updatePatient, hfind, hget]
    simpa [applyUpdate] using key

/-- C6 (amended): distinctness of ids in the Local Record Store is
preserved unconditionally by `updatePatient`, `deletePatient` and the sync
merge; it is preserved by `createPatient` and by the cache append of
`getPatientById` only when the id being added (`local-` + clock value,
resp. the normalized fetched id) is not already present — the code checks
no such condition itself. -/
theorem ids_nodup_preserved (s : StoreSt)
    (hs : (s.inMemoryPatients.map Patient.id).Nodup) :
    (∀ id updates,
      (((updatePatient id updates s).2).inMemoryPatients.map Patient.id).Nodup) ∧
    (∀ id, ((deletePatient id s).inMemoryPatients.map Patient.id).Nodup) ∧
    (∀ page, ((mergePatients s.inMemoryPatients page).map Patient.id).Nodup) ∧
    (∀ d nowMs nowIso, ("local-" ++ nowMs) ∉ s.inMemoryPatients.map Patient.id →
      (((createPatient d nowMs nowIso s).2).inMemoryPatients.map Patient.id).Nodup) ∧
    (∀ registry nowMs id,
      (∀ fp, registry id = some fp →
        (normalizeFetched nowMs fp).id ∉ s.inMemoryPatients.map Patient.id) →
      (((getPatientById registry nowMs id s).2).inMemoryPatients.map Patient.id).Nodup) := by
  refine ⟨?_, ?_, ?_, ?_, ?_⟩
  · intro id updates
    rw [update_ids_eq]
    exact hs
  · intro id
    have hsub : List.Sublist
        (((deletePatient id s).inMemoryPatients).map Patient.id)
        (s.inMemoryPatients.map Patient.id) :=
      (List.filter_sublist _).map _
    exact List.Nodup.sublist hsub hs
  · intro page
    exact mergePatients_nodup page s.inMemoryPatients hs
  · intro d nowMs nowIso hfresh
    simp [createPatient, List.nodup_append, hs, hfresh]
  · intro registry nowMs id hfresh
    rcases hloc : s.inMemoryPatients.find? (fun p => p.id == id) with _ | q
    · rcases hreg : registry id with _ | fp
      · simp [getPatientById, hloc, hreg, hs]
      · have hnot := hfresh fp hreg
        simp [getPatientById, hloc, hreg, List.nodup_append, hs, hnot]
    · simp [getPatientById, hloc, hs]

/-- Argument record for the create counterexample and witnesses. -/
def defaultData : PatientData :=
  { firstName := "A", lastName := "B", gender := "other",
    dateOfBirth := "", phoneNumber := "" }

/-- Witness for C6 (amended): the one-record store with id `"a"`. -/
theorem ids_nodup_preserved_witness :
    ((storeA.inMemoryPatients.map Patient.id).Nodup) ∧
    (((mergePatients storeA.inMemoryPatients [syncedA, syncedC]).map Patient.id).Nodup) ∧
    ((((createPatient defaultData "7" "t" storeA).2).inMemoryPatients.map Patient.id).Nodup) := by
  have h := ids_nodup_preserved storeA (by decide)
  exact ⟨by decide, h.2.2.1 [syncedA, syncedC],
    h.2.2.2.1 defaultData "7" "t" (by decide)⟩

/-- Counterexample for C6: two `createPatient` calls observing the same
`Date.now()` value (same millisecond) produce two records with the same
synthetic id `local-0` — create does not preserve id uniqueness. -/
theorem create_can_duplicate_ids :
    ((((createPatient defaultData "0" "t"
          (createPatient defaultData "0" "t" {}).2).2).inMemoryPatients.map Patient.id)
        = ["local-0", "local-0"]) ∧
    ¬ ((((createPatient defaultData "0" "t"
          (createPatient defaultData "0" "t" {}).2).2).inMemoryPatients.map Patient.id).Nodup) := by
  exact ⟨by decide, by decide⟩

/-! ## Listing: equivalence with the spec-side description -/

theorem containsRun_nil (l : List Char) : containsRun [] l = true := by
  cases l <;> simp [containsRun, startsWithChars]

theorem nameMatch_empty (p : Patient) : nameMatch "" p = true := by
  have h : (toLowerStr "").data = [] := rfl
  simp only [nameMatch, strIncludes, h]
  exact containsRun_nil _

theorem bne_empty_of_ne {s : String} (h : s ≠ "") : (s != "") = true := by
  simp [h]

theorem filter_if_truthy {α : Type} (c : Bool) (pred : α → Bool) (l : List α) :
    (if c = true then l.filter pred else l) = l.filter (fun a => !c || pred a) := by
  cases c <;> simp

/-- Under non-degenerate filter values (no empty-string `gender`,
`birthDate` or `createdAfter`, which JS truthiness would silently drop),
the sequential filter cascade equals one conjunctive filter. -/
theorem filterPatients_eq (parse : String → Int) (f : PatientFilters)
    (patients : List Patient) (hg : f.gender ≠ some "")
    (hb : f.birthDate ≠ some "") (hc : f.createdAfter ≠ some "") :
    filterPatients parse f patients = patients.filter (fun p =>
      (match f.name with | none => true | some n => nameMatch n p) &&
      (match f.gender with | none => true | some g => p.gender == g) &&
      (match f.birthDate with | none => true | some b => p.dateOfBirth == b) &&
      (match f.createdAfter with | none => true | some c => createdAfterPred parse c p)) := by
  unfold filterPatients
  rw [filter_if_truthy, filter_if_truthy, filter_if_truthy, filter_if_truthy,
    List.filter_filter, List.filter_filter, List.filter_filter]
  apply List.filter_congr
  intro p _
  rcases hn : f.name with _ | n
  · rcases hge : f.gender with _ | g <;> rcases hbd : f.birthDate with _ | b <;>
      rcases hca : f.createdAfter with _ | c <;>
      simp_all [truthyStr, bne_empty_of_ne, Bool.and_comm, Bool.and_left_comm,
        Bool.and_assoc]
  · by_cases hn0 : n = ""
    · subst hn0
      rcases hge : f.gender with _ | g <;> rcases hbd : f.birthDate with _ | b <;>
        rcases hca : f.createdAfter with _ | c <;>
        simp_all [truthyStr, bne_empty_of_ne, nameMatch_empty, Bool.and_comm,
          Bool.and_left_comm, Bool.and_assoc]
    · rcases hge : f.gender with _ | g <;> rcases hbd : f.birthDate with _ | b <;>
        rcases hca : f.createdAfter with _ | c <;>
        simp_all [truthyStr, bne_empty_of_ne, Bool.and_comm, Bool.and_left_comm,
          Bool.and_assoc]

/-- C4: once the initial sync has completed, `getPatients` equals the
spec-side `listSpec` — conjunctive filtering, `total` taken before
pagination, pagination applied last as the slice
`(page-1)*limit .. page*limit` — for every filter whose string predicates
are not the degenerate empty string. -/
theorem getPatients_matches_spec (parse : String → Int) (f : PatientFilters)
    (patients : List Patient) (hg : f.gender ≠ some "")
    (hb : f.birthDate ≠ some "") (hc : f.createdAfter ≠ some "") :
    getPatients parse true (some f) patients = listSpec parse f patients := by
  unfold getPatients listSpec
  rw [if_neg (by simp)]
  dsimp only
  rw [filterPatients_eq parse f patients hg hb hc]
  rcases hpg : f.page with _ | pg <;> rcases hlim : f.limit with _ | lim
  · simp [truthyNat, hpg, hlim]
  · simp [truthyNat, hpg, hlim]
  · simp [truthyNat, hpg, hlim]
  · by_cases hp0 : pg = 0 <;> by_cases hl0 : lim = 0 <;>
      simp [truthyNat, hpg, hlim, hp0, hl0, Nat.one_le_iff_ne_zero]

def parse0 : String → Int := fun _ => 0

/-- A record of gender `"other"`, for the degenerate-filter counterexample. -/
def otherX : Patient :=
  { id := "x", firstName := "X", lastName := "", gender := "other",
    dateOfBirth := "", phoneNumber := "" }

/-- Counterexample for C4 as stated over every filter: a supplied
empty-string gender is falsy in JS, so the code skips the gender
predicate entirely, while the claimed exact-match conjunction would
reject the record — `getPatients` and the spec-side `listSpec` disagree
at `{gender: ""}`. -/
theorem getPatients_empty_gender_mismatch :
    getPatients parse0 true (some { gender := some "" }) [otherX] ≠
      listSpec parse0 { gender := some "" } [otherX] := by
  decide

/-- A female patient record with the given numeric id. -/
def femaleAt (i : Nat) : Patient :=
  { id := toString i, firstName := "F", lastName := "P", gender := "female",
    dateOfBirth := "", phoneNumber := "" }

/-- Twenty-five matching records. -/
def store25 : List Patient := (List.range 25).map femaleAt

def filters25 : PatientFilters :=
  { gender := some "female", page := some 2, limit := some 10 }

/-- Witness for C4, realizing the spec scenario: filter
`{gender: female, page: 2, limit: 10}` over 25 matching records returns
records 11–20 with `total = 25`. -/
theorem getPatients_matches_spec_witness :
    getPatients parse0 true (some filters25) store25 =
      listSpec parse0 filters25 store25 ∧
    (getPatients parse0 true (some filters25) store25).2 = 25 ∧
    (getPatients parse0 true (some filters25) store25).1 =
      (store25.drop 10).take 10 := by
  refine ⟨getPatients_matches_spec parse0 filters25 store25
    (by decide) (by decide) (by decide), ?_, ?_⟩
  · decide
  · decide

/-! ## Pagination consistency -/

/-- Splitting a list into `⌈length/k⌉` chunks of size `k` and re-joining
them reproduces the list. -/
theorem join_chunks {α : Type} (k : Nat) (hk : 0 < k) :
    ∀ (n : Nat) (l : List α), l.length ≤ n →
      ((List.range ((l.length + k - 1) / k)).map
        (fun i => (l.drop (i * k)).take k)).flatten = l := by
  intro n
  induction n with
  | zero =>
    intro l hl
    have hnil : l = [] := List.eq_nil_of_length_eq_zero (by omega)
    subst hnil
    simp [Nat.div_eq_of_lt (by omega : k - 1 < k)]
  | succ n ih =>
    intro l hl
    by_cases h0 : l.length = 0
    · have hnil : l = [] := List.eq_nil_of_length_eq_zero h0
      subst hnil
      simp [Nat.div_eq_of_lt (by omega : k - 1 < k)]
    · have hcount : (l.length + k - 1) / k = (l.length - 1) / k + 1 := by
        have harith : l.length + k - 1 = (l.length - 1) + k := by omega
        rw [harith, Nat.add_div_right _ hk]
      have hrest : ((l.drop k).length + k - 1) / k = (l.length - 1) / k := by
        rw [List.length_drop]
        rcases Nat.le_total k l.length with hkl | hkl
        · congr 1
          omega
        · rw [Nat.div_eq_of_lt (by omega), Nat.div_eq_of_lt (by omega)]
      have hfun : (fun i => (l.drop ((i + 1) * k)).take k) =
          (fun i => ((l.drop k).drop (i * k)).take k) := by
        funext i
        rw [List.drop_drop]
        congr 2
        rw [Nat.succ_mul]
        exact Nat.add_comm _ _
      rw [hcount, List.range_succ_eq_map]
      simp only [List.map_cons, List.flatten_cons, Nat.zero_mul, List.drop_zero,
        List.map_map]
      have hcomp : ((fun i => (l.drop (i * k)).take k) ∘ Nat.succ) =
          (fun i => ((l.drop k).drop (i * k)).take k) := by
        funext i
        have : Nat.succ i * k = (i + 1) * k := rfl
        rw [Function.comp_apply, this]
        exact congrFun hfun i
      rw [hcomp, ← hrest, ih (l.drop k) (by simp [List.length_drop]; omega)]
      exact List.take_append_drop k l

/-- One page of `getPatients` under an active pagination filter. -/
theorem getPatients_page (parse : String → Int) (f : PatientFilters)
    (patients : List Patient) (p limit : Nat) (hl : 0 < limit) :
    getPatients parse true
        (some { f with page := some (p + 1), limit := some limit }) patients =
      (((filterPatients parse f patients).drop (p * limit)).take limit,
       (filterPatients parse f patients).length) := by
  have hfp : filterPatients parse
      { f with page := some (p + 1), limit := some limit } patients =
      filterPatients parse f patients := rfl
  unfold getPatients
  rw [if_neg (by simp)]
  dsimp only
  rw [hfp]
  have hcond : (truthyNat (some (p + 1)) && truthyNat (some limit)) = true := by
    simp [truthyNat]
    omega
  simp only [hcond, if_true]
  simp

/-- C7: for a fixed store, any filter and any positive limit,
concatenating pages `1 .. ⌈total/limit⌉` of `getPatients` yields exactly
the filtered set (as a list — hence without duplication or omission), and
every page reports the same `total`, the filtered set's size. -/
theorem pagination_consistency (parse : String → Int) (f : PatientFilters)
    (patients : List Patient) (limit : Nat) (hl : 0 < limit) :
    (((List.range (((filterPatients parse f patients).length + limit - 1) / limit)).map
        (fun i => (getPatients parse true
          (some { f with page := some (i + 1), limit := some limit }) patients).1)).flatten
      = filterPatients parse f patients) ∧
    (∀ p : Nat, (getPatients parse true
        (some { f with page := some (p + 1), limit := some limit }) patients).2 =
      (filterPatients parse f patients).length) := by
  constructor
  · have hfun : (fun i => (getPatients parse true
        (some { f with page := some (i + 1), limit := some limit }) patients).1) =
        (fun i => ((filterPatients parse f patients).drop (i * limit)).take limit) := by
      funext i
      rw [getPatients_page parse f patients i limit hl]
    rw [hfun]
    exact join_chunks limit hl (filterPatients parse f patients).length
      (filterPatients parse f patients) (Nat.le_refl _)
  · intro p
    rw [getPatients_page parse f patients p limit hl]

/-- Three records for the pagination witness. -/
def store3 : List Patient := [editedA, syncedC,
  { id := "d", firstName := "D", lastName := "", gender := "other",
    dateOfBirth := "", phoneNumber := "" }]

/-- Witness for C7: limit 2 over 3 records — two pages whose
concatenation is the whole (unfiltered) set. -/
theorem pagination_consistency_witness :
    (0 : Nat) < 2 ∧
    (((List.range (((filterPatients parse0 {} store3).length + 2 - 1) / 2)).map
        (fun i => (getPatients parse0 true
          (some { ({} : PatientFilters) with page := some (i + 1), limit := some 2 }) store3).1)).flatten
      = filterPatients parse0 {} store3) ∧
    filterPatients parse0 {} store3 = store3 :=
  ⟨by omega,
   (pagination_consistency parse0 {} store3 2 (by omega)).1,
   by decide⟩

/-! ## Cache-append on a getById miss and the createdAfter filter -/

/-- C10: a record appended to the store by `getPatientById` on a cache
miss carries no `createdAt` (the normalization there sets none), the
`createdAfter` predicate of `getPatients` accepts every record without a
`createdAt`, and hence the fetched record appears in the listing for
every `createdAfter` bound `T`. -/
theorem fetched_record_unfiltered (registry : String → Option FhirPatient)
    (parse : String → Int) (nowMs id : String) (s : StoreSt)
    (hmiss : s.inMemoryPatients.find? (fun p => p.id == id) = none)
    (fp : FhirPatient) (hreg : registry id = some fp) :
    (getPatientById registry nowMs id s).1 = some (normalizeFetched nowMs fp) ∧
    (getPatientById registry nowMs id s).2.inMemoryPatients =
      s.inMemoryPatients ++ [normalizeFetched nowMs fp] ∧
    (normalizeFetched nowMs fp).createdAt = none ∧
    (∀ q : Patient, q.createdAt = none →
      ∀ T, createdAfterPred parse T q = true) ∧
    (∀ T : String, normalizeFetched nowMs fp ∈
      (getPatients parse true (some { createdAfter := some T })
        ((getPatientById registry nowMs id s).2.inMemoryPatients)).1) := by
  have h1 : getPatientById registry nowMs id s =
      (some (normalizeFetched nowMs fp),
       { inMemoryPatients := s.inMemoryPatients ++ [normalizeFetched nowMs fp],
         notifications := s.notifications + 1 }) := by
    simp [getPatientById, hmiss, hreg]
  refine ⟨by rw [h1], by rw [h1], rfl, ?_, ?_⟩
  · intro q hq T
    simp [createdAfterPred, hq]
  · intro T
    rw [h1]
    unfold getPatients
    rw [if_neg (by simp)]
    dsimp only
    unfold filterPatients
    have hmem : normalizeFetched nowMs fp ∈
        s.inMemoryPatients ++ [normalizeFetched nowMs fp] :=
      List.mem_append_right _ (List.mem_singleton.mpr rfl)
    by_cases hT : T = ""
    · subst hT
      simp [truthyStr, truthyNat, hmem]
    · have hpred : createdAfterPred parse T (normalizeFetched nowMs fp) = true := rfl
      simp [truthyStr, truthyNat, bne_empty_of_ne hT, List.mem_filter, hmem, hpred]

/-- A registry record carrying only an id. -/
def fpWithId (i : String) : FhirPatient := { id := some i }

/-- Witness for C10: a fetch of id `"r"` into the empty store, then listed
with a far-future `createdAfter` bound. -/
theorem fetched_record_unfiltered_witness :
    (({} : StoreSt).inMemoryPatients.find? (fun p => p.id == "r") = none) ∧
    (getPatientById (fun _ => some (fpWithId "r")) "0" "r" {}).1 =
      some (normalizeFetched "0" (fpWithId "r")) ∧
    (normalizeFetched "0" (fpWithId "r")).createdAt = none ∧
    normalizeFetched "0" (fpWithId "r") ∈
      (getPatients parse0 true (some { createdAfter := some "2030-01-01" })
        ((getPatientById (fun _ => some (fpWithId "r")) "0" "r" {}).2.inMemoryPatients)).1 := by
  have h := fetched_record_unfiltered (fun _ => some (fpWithId "r")) parse0
    "0" "r" {} rfl (fpWithId "r") rfl
  exact ⟨rfl, h.1, h.2.2.1, h.2.2.2.2 "2030-01-01"⟩

/-- A two-page registry: page 1 holds exactly two records, page 2 holds
one more. -/
def pagedRegistry : Nat → List FhirPatient := fun page =>
  if page = 1 then [fpWithId "a", fpWithId "b"]
  else if page = 2 then [fpWithId "c"] else []

/-- C1: evaluation of the sync algorithm at a registry whose first page is
full (exactly `pageSize = 2` records) and whose second page is non-empty.
The run requests only page 1, never merges the record of page 2, and
leaves `initialSyncComplete` false: the recursive call into `page+1` is
dropped by the `isSyncing` guard, contradicting the comment in the code
that a full page causes the next page to be fetched. -/
theorem sync_stops_after_full_page :
    (syncWithFhir pagedRegistry "0" 1 2 true {}).requests = [1] ∧
    ((syncWithFhir pagedRegistry "0" 1 2 true {}).inMemoryPatients.map Patient.id)
      = ["a", "b"] ∧
    (syncWithFhir pagedRegistry "0" 1 2 true {}).isInitialSyncDone = false ∧
    (syncWithFhir pagedRegistry "0" 1 2 true {}).notifications = 1 := by
  rw [syncWithFhir_step pagedRegistry "0" 1 2 true {} rfl (by omega)]
  decide

/-- Counterexample for C5: a non-initial invocation at `page = 11` passes
the `syncInProgress` guard (the state has `isSyncing = false`) yet fires
no change notification. -/
theorem sync_notify_missed_at_depth :
    ({} : SyncState).isSyncing = false ∧
    (syncWithFhir (fun _ => []) "0" 11 50 false {}).notifications = 0 := by
  refine ⟨rfl, ?_⟩
  rw [syncWithFhir]
  norm_num

/-- C5 (amended): every invocation of `syncWithFhir` that passes the
`syncInProgress` guard and either stays within the 10-page depth bound or
is the initial pass fires exactly one change notification — in particular
a registry failure on a non-initial pass still notifies, because the
registry client absorbs the failure into an empty page.  (A non-initial
invocation beyond the depth bound fires none.) -/
theorem sync_notifies_within_bound (registry : Nat → List FhirPatient)
    (now : String) (page limit : Nat) (isInitial : Bool) (s : SyncState)
    (hguard : s.isSyncing = false)
    (h : page ≤ 10 ∨ isInitial = true) :
    (syncWithFhir registry now page limit isInitial s).notifications =
      s.notifications + 1 := by
  by_cases hp : page > 10
  · have hi : isInitial = true := by
      rcases h with h | h
      · omega
      · exact h
    rw [syncWithFhir]
    simp [hguard, hp, hi]
  · rw [syncWithFhir_step registry now page limit isInitial s hguard hp]
    dsimp only
    split
    · split
      · rfl
      · split <;> rfl
    · split <;> rfl

/-- Witness for C5 (amended): a periodic (non-initial) pass over a failing
registry — modelled, as in `fhirService`, by an empty page — still fires
exactly one notification. -/
theorem sync_notifies_within_bound_witness :
    ({} : SyncState).isSyncing = false ∧
    (syncWithFhir (fun _ => []) "0" 1 50 false {}).notifications = 0 + 1 :=
  ⟨rfl, sync_notifies_within_bound (fun _ => []) "0" 1 50 false {} rfl
    (Or.inl (by omega))⟩

end PatientService

namespace FhirService

/-- C9: the Remote Registry Client absorbs transport/server failures: a
failed search yields `{ records: [], total: 0 }` and a failed get-by-id
yields an absent result, in both cases with the failure routed to the
observability sink (the returned log) instead of being propagated. -/
theorem client_absorbs_failures
    (httpS : String → Except String SearchBundle)
    (httpG : String → Except String FhirPatient)
    (searchTerm : String) (page pageSize : Nat) (id : String)
    (eS eG : String) :
    (httpS (searchUrl searchTerm page pageSize) = .error eS →
      searchPatients httpS searchTerm page pageSize =
        ({ patients := [], total := 0 },
         ["Error fetching patients from FHIR server: " ++ eS])) ∧
    (httpG ("/Patient/" ++ id ++ "?_format=json") = .error eG →
      getPatientById httpG id =
        (none, ["Error fetching patient from FHIR server: " ++ eG])) := by
  constructor
  · intro h
    simp [searchPatients, h]
  · intro h
    simp [getPatientById, h]

/-- Witness for C9: an always-failing transport. -/
theorem client_absorbs_failures_witness :
    searchPatients (fun _ => .error "boom") "" 1 50 =
      ({ patients := [], total := 0 },
       ["Error fetching patients from FHIR server: boom"]) ∧
    getPatientById (fun _ => .error "down") "p1" =
      (none, ["Error fetching patient from FHIR server: down"]) := by
  have h := client_absorbs_failures (fun _ => .error "boom")
    (fun _ => .error "down") "" 1 50 "p1" "boom" "down"
  exact ⟨h.1 rfl, h.2 rfl⟩

end FhirService

end PatientApp
